import Mathlib

/-!
# Verification of the `alert-data` scraper core

A shallow embedding of the Go repository `mineroot/alert-data`:
the region registry (`scraper/region`), the State Store (`AlertData`),
the message parser (`TgScraper.parseMessage` together with the fixed
regular expression `alertStatusRegexp`), the backfill walk
(`TgScraper.getMessagesForPeriod` / `TgScraper.history`), the live-update
step (`TgScraper.listenUpdates`) and the one-shot run latch
(`TgScraper.Run` / `WaitForHistory`).

Modelling conventions:

* Go `time.Time` values are represented by their civil fields
  (year/month/day/hour/minute/second) on the Europe/Kyiv timeline, the
  single timezone the program uses (`kyivLocation`; `time.Unix` results
  are read on the same timeline).  Instant comparison (`time.Time.Before`)
  is the lexicographic comparison of those fields.  The Go zero value
  `time.Time{}` is January 1 of year 1, 00:00:00.
* Go machine integers carry only small region identifiers and message
  ids here, so they are modelled by `Nat`/`Int` without overflow concerns.
* Fallible Go functions (`(T, error)` returns) become `Except String T`;
  a `nil` pointer argument becomes an `Option`.
-/

/-- Civil date-time on the Europe/Kyiv timeline; models Go `time.Time`
as used by this program (sub-second precision is never produced). -/
structure DateTime where
  year : Nat
  month : Nat
  day : Nat
  hour : Nat
  minute : Nat
  second : Nat
deriving DecidableEq, Repr

/-- Models `time.Time.Before`: strict lexicographic comparison of the
civil fields (instant order on one fixed timeline). -/
def DateTime.before (a b : DateTime) : Bool :=
  decide (a.year < b.year ∨ (a.year = b.year ∧
    (a.month < b.month ∨ (a.month = b.month ∧
      (a.day < b.day ∨ (a.day = b.day ∧
        (a.hour < b.hour ∨ (a.hour = b.hour ∧
          (a.minute < b.minute ∨ (a.minute = b.minute ∧
            a.second < b.second))))))))))

/-- The Go zero value `time.Time{}`: January 1, year 1, 00:00:00. -/
def zeroTime : DateTime := ⟨1, 1, 1, 0, 0, 0⟩

/-- `region.ID`: a small integer region identifier. -/
abbrev Region.ID := Nat

/-- The `namesById` table of `scraper/region`, verbatim from the source. -/
def Region.namesById : List (Region.ID × String) :=
  [ (1,  "Автономна Республіка Крим"),
    (2,  "Вінницька область"),
    (3,  "Волинська область"),
    (4,  "Дніпропетровська область"),
    (5,  "Донецька область"),
    (6,  "Житомирська область"),
    (7,  "Закарпатська область"),
    (8,  "Запорізька область"),
    (9,  "Івано-Франківська область"),
    (10, "Київська область"),
    (11, "Кіровоградська область"),
    (12, "Луганська область"),
    (13, "Львівська область"),
    (14, "Миколаївська область"),
    (15, "Одеська область"),
    (16, "Полтавська область"),
    (17, "Рівненська область"),
    (18, "Сумська область"),
    (19, "Тернопільська область"),
    (20, "Харківська область"),
    (21, "Херсонська область"),
    (22, "Хмельницька область"),
    (23, "Черкаська область"),
    (24, "Чернівецька область"),
    (25, "Чернігівська область"),
    (26, "м. Київ"),
    (27, "м. Севастополь") ]

/-- The registered region identifiers (the domain of `namesById`). -/
def Region.ids : List Region.ID := Region.namesById.map (fun p => p.1)

/-- `region.Parse`: name → identifier lookup via the `idsByName` map
(built by inverting `namesById`); unknown names are an error
(Go additionally returns `region.Invalid`). -/
def Region.Parse (name : String) : Except String Region.ID :=
  match Region.namesById.find? (fun p => p.2 == name) with
  | some p => .ok p.1
  | none => .error ("name does not exist")

/-- `scraper.Status`: the alert status value for one region. -/
structure Status where
  region : Region.ID
  enabled : Bool
  updatedAt : DateTime
  isHistory : Bool
deriving DecidableEq, Repr

/-- `scraper.AlertData`: the State Store, a map region → latest status.
The run-time `sync.RWMutex` guards the Go map; the embedding works with
the map value it protects. -/
structure AlertData where
  data : Region.ID → Option Status

/-- `AlertData.set`: the monotonic-merge upsert.  A `nil` status
(`none` here) is ignored; an update strictly older than the entry on
file is silently skipped; otherwise (including timestamp ties) the new
status replaces the entry. -/
def AlertData.set (st : AlertData) : Option Status → AlertData
  | none => st
  | some s =>
    match st.data s.region with
    | some cur =>
      if s.updatedAt.before cur.updatedAt then st
      else ⟨fun r => if r = s.region then some s else st.data r⟩
    | none => ⟨fun r => if r = s.region then some s else st.data r⟩

/-- `AlertData.GetByRegion`: snapshot query; unknown regions are an
"invalid region" error.  (The Go error text interpolates the id.) -/
def AlertData.GetByRegion (st : AlertData) (id : Region.ID) : Except String Status :=
  match st.data id with
  | some s => .ok s
  | none => .error ("scraper: invalid region")

/-- A sequence of `set` calls applied left to right. -/
def AlertData.setAll (st : AlertData) (l : List Status) : AlertData :=
  l.foldl (fun a s => a.set (some s)) st

/-- The empty map the `AlertData` literal starts from in `newAlertData`. -/
def emptyAlertData : AlertData := ⟨fun _ => none⟩

/-- The fixed Crimea seed of `newAlertData`
(2022-12-11 00:22 Kyiv time, raid alert on). -/
def crimeaSeed : Status := ⟨1, true, ⟨2022, 12, 11, 0, 22, 0⟩, true⟩

/-- The fixed Luhansk seed of `newAlertData`
(2022-04-04 19:45 Kyiv time, raid alert on). -/
def luhanskSeed : Status := ⟨12, true, ⟨2022, 4, 4, 19, 45, 0⟩, true⟩

/-- `newAlertData`: every registered region gets a disabled zero-time
history entry (Go iterates the registry map in arbitrary order; all the
written regions are distinct, so the list order used here is
immaterial), then the Crimea and Luhansk seeds are merged. -/
def newAlertData : AlertData :=
  ((emptyAlertData.setAll
      (Region.namesById.map (fun p => ⟨p.1, false, zeroTime, true⟩))).set
    (some crimeaSeed)).set (some luhanskSeed)

/-- Concrete fresh-region call used by the C1 witness (Vinnytsia, 2024). -/
def wStatusA : Status := ⟨2, true, ⟨2024, 1, 1, 10, 0, 0⟩, false⟩

/-- Second concrete call used by the C1 witness (older timestamp). -/
def wStatusB : Status := ⟨2, false, ⟨2024, 1, 1, 9, 0, 0⟩, false⟩

instance {α β : Type} [DecidableEq α] [DecidableEq β] : DecidableEq (Except α β) :=
  fun a b =>
    match a, b with
    | .ok x, .ok y => decidable_of_iff (x = y) (by simp)
    | .error x, .error y => decidable_of_iff (x = y) (by simp)
    | .ok _, .error _ => isFalse (by simp)
    | .error _, .ok _ => isFalse (by simp)

/-- Reachable State Store states: the store right after construction,
followed by any sequence of `set` calls for registered regions.  Every
`set` the program performs after construction carries a status produced
by `parseMessage`, whose region comes from a successful `Region.Parse`
and is therefore registered (`parseMessage_region_registered` below),
so this relation covers every state the program can put the store in. -/
inductive Reachable : AlertData → Prop
  | init : Reachable newAlertData
  | step {st : AlertData} (s : Status) (hs : s.region ∈ Region.ids) :
      Reachable st → Reachable (st.set (some s))

/-- `client.Message` as this program reads it: numeric id, delivery
timestamp (`Date`, read on the Kyiv civil timeline), whether
`ForwardInfo` is non-nil, whether the content is a `messageText`, and
the text itself. -/
structure Message where
  id : Int
  date : DateTime
  forwarded : Bool
  isText : Bool
  text : String
deriving DecidableEq, Repr

/-- The leading marker glyph class `[🔴🟢🟡]` of `alertStatusRegexp`. -/
def isMarker (c : Char) : Bool := c == '🔴' || c == '🟢' || c == '🟡'

/-- The "alert cleared" phrase of `alertStatusRegexp`. -/
def clearPhrase : String := "Відбій тривоги"

/-- The "alert raised" phrase of `alertStatusRegexp`. -/
def raidPhrase : String := "Повітряна тривога"

/-- The three submatches `FindStringSubmatch` yields for a matching
line: the four time digits (`match[1]`), the status phrase
(`match[2]`) and the region capture (`match[3]`). -/
structure LineMatch where
  d1 : Char
  d2 : Char
  d3 : Char
  d4 : Char
  phrase : String
  regionStr : String
deriving DecidableEq, Repr

/-- The `(Відбій тривоги|Повітряна тривога) в ` part of the pattern:
one of the two fixed phrases followed by the literal ` в `. -/
def stripPhrase (cs : List Char) : Option (String × List Char) :=
  if ((clearPhrase ++ " в ").toList).isPrefixOf cs then
    some (clearPhrase, cs.drop ((clearPhrase ++ " в ").toList).length)
  else if ((raidPhrase ++ " в ").toList).isPrefixOf cs then
    some (raidPhrase, cs.drop ((raidPhrase ++ " в ").toList).length)
  else none

/-- The `(.*?)\.?$` tail of the pattern: the lazy capture makes `\.?`
swallow exactly one trailing dot when one is present. -/
def stripTrailingDot (cs : List Char) : List Char :=
  if cs.getLast? = some '.' then cs.dropLast else cs

/-- One line matched against `alertStatusRegexp`
`(?m)^[🔴🟢🟡] (\d\d:\d\d) (Відбій тривоги|Повітряна тривога) в (.*?)\.?$`
(`.` never matches a newline, so a match stays within one line). -/
def matchLine (cs : List Char) : Option LineMatch :=
  match cs with
  | mark :: ' ' :: d1 :: d2 :: ':' :: d3 :: d4 :: ' ' :: rest =>
    if isMarker mark && d1.isDigit && d2.isDigit && d3.isDigit && d4.isDigit then
      match stripPhrase rest with
      | some (phrase, afterPhrase) =>
        some ⟨d1, d2, d3, d4, phrase, (stripTrailingDot afterPhrase).asString⟩
      | none => none
    else none
  | _ => none

/-- Split a character list at newline separators (the lines the
multiline anchors `^`/`$` of the pattern delimit); same splitting as
`String.splitOn` with separator `"\n"`. -/
def splitLines : List Char → List (List Char)
  | [] => [[]]
  | c :: rest =>
    if c = '\n' then [] :: splitLines rest
    else (c :: (splitLines rest).headI) :: (splitLines rest).tail

/-- `alertStatusRegexp.FindStringSubmatch` over the multiline text: the
first line (in order) that matches the anchored pattern. -/
def alertStatusFind (text : String) : Option LineMatch :=
  (splitLines text.toList).findSome? matchLine

/-- Numeric value of an ASCII digit. -/
def digitVal (c : Char) : Nat := c.toNat - '0'.toNat

/-- `TgScraper.parseMessage`.  A non-text content or a non-matching
text is a benign non-match (`ok none`); a matching line whose digit
pair is not a valid time of day makes `time.Parse` fail, which is
returned as an error; the semantic timestamp combines the delivery
date with the parsed time of day.  The source then computes
`updatedAt.Add(-24 * time.Hour)` when `updatedAt.After(messageAt)`
(the midnight-rollback case), but `time.Time.Add` returns a new value
and the result is discarded, so `updatedAt` is left unchanged — the
embedding reproduces that no-op faithfully.  An unknown phrase or an
unknown region name is again a benign non-match. -/
def parseMessage (m : Message) : Except String (Option Status) :=
  if !m.isText then .ok none
  else
    match alertStatusFind m.text with
    | none => .ok none
    | some lm =>
      if 24 ≤ 10 * digitVal lm.d1 + digitVal lm.d2 ∨
          60 ≤ 10 * digitVal lm.d3 + digitVal lm.d4 then
        .error ("failed to parse time: " ++
          String.mk [lm.d1, lm.d2, ':', lm.d3, lm.d4, ':', '0', '0'])
      else
        match (if lm.phrase = clearPhrase then some false
          else if lm.phrase = raidPhrase then some true
          else none) with
        | none => .ok none
        | some raidEnabled =>
          match Region.Parse lm.regionStr with
          | .error _ => .ok none
          | .ok regionId =>
            .ok (some ⟨regionId, raidEnabled,
              ⟨m.date.year, m.date.month, m.date.day,
                10 * digitVal lm.d1 + digitVal lm.d2,
                10 * digitVal lm.d3 + digitVal lm.d4, 0⟩, false⟩)

/-- One `GetChatHistory` response: a transport error or a page of
messages (the code reads only the first message of a page). -/
inductive Fetch where
  | err (e : String)
  | page (msgs : List Message)
deriving DecidableEq, Repr

/-- Outcome of the backfill walk over a finite response script:
`outOfScript` means the loop would issue yet another fetch (the walk
has not terminated within the modelled responses). -/
inductive GMResult where
  | ok (msgs : List Message)
  | err (e : String)
  | outOfScript
deriving DecidableEq, Repr

/-- The loop body of `TgScraper.getMessagesForPeriod`.  Each iteration
first checks the context (`ctxErr` models `ctx.Err()`), then consumes
the next scripted response; an empty page or a first message strictly
older than `historyFromDate` breaks the loop; forwarded and non-text
messages are skipped; every other message is appended.  (The
`fromMessageId` cursor only shapes the next request and is absorbed
into the response script.) -/
def gmLoop (historyFromDate : DateTime) (ctxErr : Option String) :
    List Fetch → List Message → GMResult
  | script, acc =>
    match ctxErr with
    | some e => .err e
    | none =>
      match script with
      | [] => .outOfScript
      | .err e :: _ => .err e
      | .page [] :: _ => .ok acc
      | .page (m :: _) :: rest =>
        if m.date.before historyFromDate then .ok acc
        else if m.forwarded then gmLoop historyFromDate ctxErr rest acc
        else if !m.isText then gmLoop historyFromDate ctxErr rest acc
        else gmLoop historyFromDate ctxErr rest (acc ++ [m])

/-- `TgScraper.getMessagesForPeriod` over a response script. -/
def getMessagesForPeriod (historyFromDate : DateTime)
    (ctxErr : Option String) (script : List Fetch) : GMResult :=
  gmLoop historyFromDate ctxErr script []

/-- A message the walk keeps: not forwarded and text content. -/
def keepMessage (m : Message) : Bool := !m.forwarded && m.isText

/-- The first message of every non-empty page of a response script
(the only message each loop iteration examines). -/
def pageHeads (script : List Fetch) : List Message :=
  script.filterMap (fun f =>
    match f with
    | .page (m :: _) => some m
    | _ => none)

/-- The page heads the walk keeps (specification-side description of
what `gmLoop` accumulates before its stopping fetch). -/
def collectHeads (script : List Fetch) : List Message :=
  script.filterMap (fun f =>
    match f with
    | .page (m :: _) => if keepMessage m then some m else none
    | _ => none)

/-- Result of the backfill sub-task `TgScraper.history`: the store
after the merges, the returned error if any, and whether the deferred
`close(r.historyDone)` has run (it runs whenever `history` returns;
`false` marks the walk still fetching beyond the modelled script). -/
structure HistoryResult where
  store : AlertData
  errMsg : Option String
  historyDoneClosed : Bool

/-- The merge loop of `TgScraper.history` over the (already reversed)
message batch: parse each message, fail the sub-task on a parse error,
skip benign non-matches, tag parsed statuses `IsHistory = true` and
merge them into the store. -/
def histLoop (st : AlertData) : List Message → HistoryResult
  | [] => ⟨st, none, true⟩
  | m :: tl =>
    match parseMessage m with
    | .error e => ⟨st, some ("unable to scrape history: " ++ e), true⟩
    | .ok none => histLoop st tl
    | .ok (some s) =>
      histLoop (st.set (some ⟨s.region, s.enabled, s.updatedAt, true⟩)) tl

/-- `TgScraper.history`: fetch the bounded window, reverse it so the
oldest message comes first, then merge; `defer close(r.historyDone)`
runs on every return path. -/
def history (historyFromDate : DateTime) (ctxErr : Option String)
    (script : List Fetch) (st : AlertData) : HistoryResult :=
  match getMessagesForPeriod historyFromDate ctxErr script with
  | .err e => ⟨st, some e, true⟩
  | .ok msgs => histLoop st msgs.reverse
  | .outOfScript => ⟨st, none, false⟩

/-- Which arm `TgScraper.WaitForHistory`'s `select` returns through. -/
inductive WaitResult where
  | historyDone
  | ctxCancelled
deriving DecidableEq, Repr

/-- `TgScraper.WaitForHistory`: a two-arm `select` on the
`historyDone` channel and the caller's context.  `pick` resolves Go's
nondeterministic choice when both arms are ready; `none` means neither
arm is ready and the call blocks. -/
def WaitForHistory (historyDoneClosed ctxDone pick : Bool) : Option WaitResult :=
  match historyDoneClosed, ctxDone with
  | true, false => some .historyDone
  | false, true => some .ctxCancelled
  | true, true => if pick then some .historyDone else some .ctxCancelled
  | false, false => none

/-- One event taken from the live listener's queue. -/
inductive Update where
  | nilUpdate
  | otherKind
  | newMessage (m : Message)
deriving DecidableEq, Repr

/-- One iteration of `TgScraper.listenUpdates`: a nil event is a fatal
protocol violation, a non-new-message event is skipped, a parse error
is fatal, a benign non-match is skipped, and a parsed status is merged
and forwarded on the outbound feed (the returned `Option Status`). -/
def listenUpdatesStep (st : AlertData) :
    Update → Except String (AlertData × Option Status)
  | .nilUpdate => .error ("received nil update")
  | .otherKind => .ok (st, none)
  | .newMessage m =>
    match parseMessage m with
    | .error e => .error ("unable to scrape update: " ++ e)
    | .ok none => .ok (st, none)
    | .ok (some s) => .ok (st.set (some s), some s)

/-- The run-latch state of `scraper.TgScraper`: whether the client is
non-nil, whether `sync.Once` has fired, and a ghost counter of how
many times the run body (`r.run`, the errgroup with the backfill and
live-listen sub-tasks) has executed. -/
structure TgScraper where
  hasClient : Bool
  onceDone : Bool
  runCount : Nat
deriving DecidableEq, Repr

/-- Terminal outcome of one `Run` invocation. -/
inductive RunOutcome where
  | panicked (msg : String)
  | ok
  | err (e : String)
deriving DecidableEq, Repr

/-- `scraper.NewTgScraper`: a fresh latch (the caller may still hand
in a nil client). -/
def NewTgScraper (hasClient : Bool) : TgScraper := ⟨hasClient, false, 0⟩

/-- `TgScraper.Run`: nil-client and nil-context panics come first;
then `once.Do` runs the run body only on the first invocation, and the
captured error is wrapped with the `scraper: ` prefix.  On any later
invocation `once.Do` is a no-op, the local `err` stays nil and the
call returns nil.  `runResult` is the oracle for what the run body
`r.run(ctx)` would return. -/
def TgScraper.Run (r : TgScraper) (ctxPresent : Bool)
    (runResult : Option String) : TgScraper × RunOutcome :=
  if r.hasClient = false then
    (r, .panicked ("scraper: use scraper.NewTgScraper() to create *TgScraper instance"))
  else if ctxPresent = false then
    (r, .panicked ("scraper: nil context"))
  else if r.onceDone then (r, .ok)
  else
    match runResult with
    | some e => (⟨r.hasClient, true, r.runCount + 1⟩, .err ("scraper: " ++ e))
    | none => (⟨r.hasClient, true, r.runCount + 1⟩, .ok)

/-- A message delivered just after midnight (2024-08-22 00:01 Kyiv
time) whose status line carries the late-evening time 23:59. -/
def badMidnightMsg : Message :=
  ⟨1, ⟨2024, 8, 22, 0, 1, 0⟩, false, true,
    "🔴 23:59 Повітряна тривога в м. Київ"⟩

/-- A message matching the status-line shape whose digit pair 99:99 is
not a valid time of day. -/
def badTimeMsg : Message :=
  ⟨1, ⟨2024, 8, 22, 10, 0, 0⟩, false, true,
    "🔴 99:99 Повітряна тривога в м. Київ"⟩

/-- The raid message of the repository's own end-to-end test
(delivered 2024-08-21 02:15:19 Kyiv time). -/
def odesaRaidMsg : Message :=
  ⟨2, ⟨2024, 8, 21, 2, 15, 19⟩, false, true,
    "🔴 02:15 Повітряна тривога в Одеська область\nСлідкуйте за подальшими повідомленнями.\n#Одеська_область"⟩

/-- The clear message of the repository's own end-to-end test
(delivered 2024-08-19 19:46:52 Kyiv time, before the test horizon). -/
def odesaClearMsg : Message :=
  ⟨1, ⟨2024, 8, 19, 19, 46, 52⟩, false, true,
    "🟢 19:46 Відбій тривоги в Одеська область.\nСлідкуйте за подальшими повідомленнями.\n#Одеська_область"⟩

theorem DateTime.before_irrefl (a : DateTime) : a.before a = false := by
  simp [DateTime.before]

theorem DateTime.before_asymm {a b : DateTime} (h : a.before b = true) :
    b.before a = false := by
  simp [DateTime.before] at h ⊢
  omega

theorem DateTime.before_antisymm {a b : DateTime}
    (h1 : a.before b = false) (h2 : b.before a = false) : a = b := by
  obtain ⟨a1, a2, a3, a4, a5, a6⟩ := a
  obtain ⟨b1, b2, b3, b4, b5, b6⟩ := b
  simp [DateTime.before] at h1 h2
  simp only [DateTime.mk.injEq]
  omega

theorem DateTime.not_before_trans {a b c : DateTime}
    (h1 : a.before b = false) (h2 : b.before c = false) :
    a.before c = false := by
  simp [DateTime.before] at h1 h2 ⊢
  omega

theorem AlertData.set_data_ne {st : AlertData} {s : Status} {r : Region.ID}
    (h : r ≠ s.region) :
    (st.set (some s)).data r = st.data r := by
  simp only [AlertData.set]
  cases hcur : st.data s.region with
  | none => simp [h]
  | some cur =>
    by_cases hb : s.updatedAt.before cur.updatedAt <;> simp [hb, h]

theorem AlertData.set_data_self {st : AlertData} {s cur : Status}
    (hcur : st.data s.region = some cur) :
    (st.set (some s)).data s.region =
      (if s.updatedAt.before cur.updatedAt then some cur else some s) := by
  simp only [AlertData.set]
  rw [hcur]
  by_cases hb : s.updatedAt.before cur.updatedAt <;> simp [hb, hcur]

theorem AlertData.set_data_self_none {st : AlertData} {s : Status}
    (hcur : st.data s.region = none) :
    (st.set (some s)).data s.region = some s := by
  simp only [AlertData.set]
  rw [hcur]
  simp

/-- Folding a sequence of `set` calls for one region over an existing
entry always leaves some entry whose timestamp dominates the initial
entry and every call of the sequence, and which is the initial entry or
one of the calls. -/
theorem AlertData.setAll_max {r : Region.ID} :
    ∀ (l : List Status) (st : AlertData) (cur : Status),
      st.data r = some cur → (∀ s ∈ l, s.region = r) →
      ∃ final, (st.setAll l).data r = some final ∧
        (final = cur ∨ final ∈ l) ∧
        final.updatedAt.before cur.updatedAt = false ∧
        ∀ s ∈ l, final.updatedAt.before s.updatedAt = false := by
  intro l
  induction l with
  | nil =>
    intro st cur hcur _
    exact ⟨cur, by simpa [AlertData.setAll] using hcur, Or.inl rfl,
      DateTime.before_irrefl _, by simp⟩
  | cons s tl ih =>
    intro st cur hcur hreg
    have hsr : s.region = r := hreg s (by simp)
    have hcur' : st.data s.region = some cur := by rw [hsr]; exact hcur
    have key : (st.set (some s)).data r =
        some (if s.updatedAt.before cur.updatedAt then cur else s) := by
      rw [← hsr]
      rw [AlertData.set_data_self hcur']
      by_cases hb : s.updatedAt.before cur.updatedAt <;> simp [hb]
    obtain ⟨final, hfin, hmem, hgec, hall⟩ :=
      ih (st.set (some s))
        (if s.updatedAt.before cur.updatedAt then cur else s) key
        (fun x hx => hreg x (List.mem_cons_of_mem _ hx))
    have hc1c : (if s.updatedAt.before cur.updatedAt then cur
        else s).updatedAt.before cur.updatedAt = false := by
      by_cases hb : s.updatedAt.before cur.updatedAt
      · simp [hb, DateTime.before_irrefl]
      · simp only [hb, if_false]
        simpa using hb
    have hc1s : (if s.updatedAt.before cur.updatedAt then cur
        else s).updatedAt.before s.updatedAt = false := by
      by_cases hb : s.updatedAt.before cur.updatedAt
      · simp only [hb, if_true]
        exact DateTime.before_asymm hb
      · simp [hb, DateTime.before_irrefl]
    refine ⟨final, ?_, ?_, ?_, ?_⟩
    · simpa [AlertData.setAll] using hfin
    · rcases hmem with hfc | hft
      · by_cases hb : s.updatedAt.before cur.updatedAt
        · rw [hb] at hfc; simp at hfc; exact Or.inl hfc
        · rw [eq_false_of_ne_true hb] at hfc; simp at hfc
          exact Or.inr (by simp [hfc])
      · exact Or.inr (List.mem_cons_of_mem _ hft)
    · exact DateTime.not_before_trans hgec hc1c
    · intro x hx
      rcases List.mem_cons.mp hx with hxs | hxt
      · subst hxs
        exact DateTime.not_before_trans hgec hc1s
      · exact hall x hxt

/-- **C1.** For every sequence of `set` calls applied to a fresh
(zero-timestamp, as right after construction) entry of the State
Store's region `r`, the final stored `updatedAt` for `r` is the maximum
`updatedAt` among the calls (it occurs among the calls and is not
before any of them), the value is the same for any permutation of the
call sequence, and a call whose `updatedAt` ties the current entry
overwrites the entry.  The hypothesis that no call's timestamp is
before the zero value holds for every `Status` the program constructs
(all carry genuine calendar timestamps at or after year 1). -/
theorem set_final_updatedAt_is_max
    (st : AlertData) (r : Region.ID) (cur : Status) (l l' : List Status)
    (hcur : st.data r = some cur)
    (hfresh : cur.updatedAt = zeroTime)
    (hreg : ∀ s ∈ l, s.region = r)
    (hvalid : ∀ s ∈ l, s.updatedAt.before zeroTime = false)
    (hne : l ≠ [])
    (hperm : l'.Perm l) :
    ∃ final final',
      (st.setAll l).data r = some final ∧
      (st.setAll l').data r = some final' ∧
      final.updatedAt ∈ l.map (fun s => s.updatedAt) ∧
      (∀ s ∈ l, final.updatedAt.before s.updatedAt = false) ∧
      final'.updatedAt = final.updatedAt ∧
      (∀ s : Status, s.region = r → s.updatedAt = cur.updatedAt →
        (st.set (some s)).data r = some s) := by
  obtain ⟨final, hfin, hmem, hgec, hall⟩ := AlertData.setAll_max l st cur hcur hreg
  obtain ⟨final', hfin', hmem', hgec', hall'⟩ :=
    AlertData.setAll_max l' st cur hcur (fun s hs => hreg s (hperm.mem_iff.mp hs))
  have hmax : final.updatedAt ∈ l.map (fun s => s.updatedAt) := by
    rcases hmem with hfc | hfl
    · obtain ⟨s0, hs0⟩ := List.exists_mem_of_ne_nil l hne
      have h1 : s0.updatedAt.before cur.updatedAt = false := by
        rw [hfresh]; exact hvalid s0 hs0
      have h2 : final.updatedAt.before s0.updatedAt = false := hall s0 hs0
      rw [hfc] at h2
      have heq : s0.updatedAt = cur.updatedAt := DateTime.before_antisymm h1 h2
      rw [hfc, ← heq]
      exact List.mem_map_of_mem _ hs0
    · exact List.mem_map_of_mem _ hfl
  refine ⟨final, final', hfin, hfin', hmax, hall, ?_, ?_⟩
  · obtain ⟨s1, hs1, hs1u⟩ := List.mem_map.mp hmax
    have hforward : final'.updatedAt.before final.updatedAt = false := by
      rw [← hs1u]
      exact hall' s1 (hperm.mem_iff.mpr hs1)
    have hbackward : final.updatedAt.before final'.updatedAt = false := by
      rcases hmem' with hfc' | hfl'
      · rw [hfc', hfresh]
        rcases hmem with hfc | hfl
        · rw [hfc, hfresh, ← hfresh]
          rw [hfresh]
          exact DateTime.before_irrefl _
        · rw [← hfresh]
          exact hgec
      · exact hall final' (hperm.mem_iff.mp hfl')
    exact DateTime.before_antisymm hforward hbackward
  · intro s hsr hsu
    have hcur2 : st.data s.region = some cur := by rw [hsr]; exact hcur
    have : s.updatedAt.before cur.updatedAt = false := by
      rw [hsu]; exact DateTime.before_irrefl _
    rw [← hsr]
    rw [AlertData.set_data_self hcur2, this]
    simp

/-- **C7.** A `set` call carrying an `updatedAt` strictly older than
the timestamp currently stored for its region changes nothing: the
whole map (in particular the entry's `enabled`, `updatedAt` and
`isHistory` fields) is exactly as before, and no error is produced
(`set` returns normally). -/
theorem stale_set_is_noop (st : AlertData) (s cur : Status)
    (hcur : st.data s.region = some cur)
    (hstale : s.updatedAt.before cur.updatedAt = true) :
    ∀ r, (st.set (some s)).data r = st.data r := by
  intro r
  simp [AlertData.set, hcur, hstale]

theorem set_final_updatedAt_is_max_witness :
    (newAlertData.data 2 = some ⟨2, false, zeroTime, true⟩ ∧
      (⟨2, false, zeroTime, true⟩ : Status).updatedAt = zeroTime ∧
      (∀ s ∈ [wStatusA, wStatusB], s.region = 2) ∧
      (∀ s ∈ [wStatusA, wStatusB], s.updatedAt.before zeroTime = false) ∧
      ([wStatusA, wStatusB] : List Status) ≠ [] ∧
      ([wStatusB, wStatusA] : List Status).Perm [wStatusA, wStatusB]) ∧
    ∃ final final',
      (newAlertData.setAll [wStatusA, wStatusB]).data 2 = some final ∧
      (newAlertData.setAll [wStatusB, wStatusA]).data 2 = some final' ∧
      final.updatedAt ∈ [wStatusA, wStatusB].map (fun s => s.updatedAt) ∧
      (∀ s ∈ [wStatusA, wStatusB], final.updatedAt.before s.updatedAt = false) ∧
      final'.updatedAt = final.updatedAt ∧
      (∀ s : Status, s.region = 2 →
        s.updatedAt = (⟨2, false, zeroTime, true⟩ : Status).updatedAt →
        (newAlertData.set (some s)).data 2 = some s) :=
  ⟨⟨by decide, by decide, by decide, by decide, by decide,
      List.Perm.swap wStatusA wStatusB []⟩,
    set_final_updatedAt_is_max newAlertData 2 ⟨2, false, zeroTime, true⟩
      [wStatusA, wStatusB] [wStatusB, wStatusA]
      (by decide) (by decide) (by decide) (by decide) (by decide)
      (List.Perm.swap wStatusA wStatusB [])⟩

theorem stale_set_is_noop_witness :
    (newAlertData.data crimeaSeed.region = some crimeaSeed ∧
      DateTime.before ⟨2020, 1, 1, 0, 0, 0⟩ crimeaSeed.updatedAt = true) ∧
    (newAlertData.set
        (some ⟨crimeaSeed.region, false, ⟨2020, 1, 1, 0, 0, 0⟩, false⟩)).data 1 =
      newAlertData.data 1 :=
  ⟨⟨by decide, by decide⟩,
    stale_set_is_noop newAlertData
      ⟨crimeaSeed.region, false, ⟨2020, 1, 1, 0, 0, 0⟩, false⟩ crimeaSeed
      (by decide) (by decide) 1⟩

theorem AlertData.set_preserves_isSome {st : AlertData} {x : Option Status}
    {id : Region.ID} (h : (st.data id).isSome = true) :
    ((st.set x).data id).isSome = true := by
  cases x with
  | none => exact h
  | some s =>
    by_cases hid : id = s.region
    · cases hcur : st.data s.region with
      | none => rw [hid, AlertData.set_data_self_none hcur]; rfl
      | some cur =>
        rw [hid, AlertData.set_data_self hcur]
        by_cases hb : s.updatedAt.before cur.updatedAt <;> simp [hb]
    · rw [AlertData.set_data_ne hid]
      exact h

theorem AlertData.setAll_data_not_mem {id : Region.ID} :
    ∀ (l : List Status) (st : AlertData), id ∉ l.map (fun s => s.region) →
      (st.setAll l).data id = st.data id := by
  intro l
  induction l with
  | nil => intro st _; rfl
  | cons s tl ih =>
    intro st hid
    have h1 : id ≠ s.region := by
      intro he
      exact hid (by simp [he])
    have h2 : id ∉ tl.map (fun s => s.region) := by
      intro hm
      exact hid (by simp [hm])
    calc (st.setAll (s :: tl)).data id
        = ((st.set (some s)).setAll tl).data id := by simp [AlertData.setAll]
      _ = (st.set (some s)).data id := ih _ h2
      _ = st.data id := AlertData.set_data_ne h1

/-- Registered regions have an entry right after construction
(a finite check over the registry). -/
theorem newAlertData_dom_mem :
    ∀ id ∈ Region.ids, ((newAlertData.data id).isSome = true) := by decide

/-- Unregistered identifiers have no entry after construction. -/
theorem newAlertData_dom_not_mem (id : Region.ID) (hid : id ∉ Region.ids) :
    newAlertData.data id = none := by
  have h1 : id ≠ crimeaSeed.region := by
    intro he
    exact hid (by rw [he]; decide)
  have h12 : id ≠ luhanskSeed.region := by
    intro he
    exact hid (by rw [he]; decide)
  have hmap : id ∉ (Region.namesById.map
      (fun p => (⟨p.1, false, zeroTime, true⟩ : Status))).map (fun s => s.region) := by
    rw [List.map_map]
    exact hid
  unfold newAlertData
  rw [AlertData.set_data_ne h12, AlertData.set_data_ne h1,
    AlertData.setAll_data_not_mem _ _ hmap]
  rfl

theorem reachable_dom {st : AlertData} (h : Reachable st) :
    ∀ id : Region.ID, (id ∈ Region.ids → (st.data id).isSome = true) ∧
      (id ∉ Region.ids → st.data id = none) := by
  induction h with
  | init =>
    intro id
    exact ⟨newAlertData_dom_mem id, newAlertData_dom_not_mem id⟩
  | step s hs hr ihr =>
    intro id
    refine ⟨fun hid => AlertData.set_preserves_isSome ((ihr id).1 hid),
      fun hid => ?_⟩
    have hne : id ≠ s.region := by
      intro he
      exact hid (he ▸ hs)
    rw [AlertData.set_data_ne hne]
    exact (ihr id).2 hid

/-- **C4.** In every reachable State Store state, `GetByRegion`
succeeds on every identifier of the Region Registry and returns exactly
the stored snapshot, while on any unregistered identifier it fails with
the unknown-region error.  The embedded `GetByRegion` is a pure
function of the store, so the query also leaves the store unchanged. -/
theorem getByRegion_known_ok_unknown_error
    (st : AlertData) (h : Reachable st) (id : Region.ID) :
    (id ∈ Region.ids → ∃ s, st.data id = some s ∧
      st.GetByRegion id = .ok s) ∧
    (id ∉ Region.ids →
      st.GetByRegion id = .error ("scraper: invalid region")) := by
  obtain ⟨h1, h2⟩ := reachable_dom h id
  constructor
  · intro hid
    obtain ⟨s, hs⟩ := Option.isSome_iff_exists.mp (h1 hid)
    exact ⟨s, hs, by simp [AlertData.GetByRegion, hs]⟩
  · intro hid
    simp [AlertData.GetByRegion, h2 hid]

theorem getByRegion_known_ok_unknown_error_witness :
    ((15 : Region.ID) ∈ Region.ids ∧
      ∃ s, newAlertData.data 15 = some s ∧
        newAlertData.GetByRegion 15 = .ok s) ∧
    ((99 : Region.ID) ∉ Region.ids ∧
      newAlertData.GetByRegion 99 = .error ("scraper: invalid region")) :=
  ⟨⟨by decide,
      (getByRegion_known_ok_unknown_error newAlertData Reachable.init 15).1
        (by decide)⟩,
    ⟨by decide,
      (getByRegion_known_ok_unknown_error newAlertData Reachable.init 99).2
        (by decide)⟩⟩

/-- **C5.** Immediately after construction every registered region other
than Crimea (id 1) and Luhansk (id 12) holds `enabled = false`, the zero
timestamp and `isHistory = true`, while Crimea and Luhansk hold
`enabled = true`, `isHistory = true` and their fixed seed timestamps
2022-12-11 00:22 and 2022-04-04 19:45 (Kyiv time). -/
theorem newAlertData_initial_entries :
    (∀ id ∈ Region.ids, id ≠ crimeaSeed.region → id ≠ luhanskSeed.region →
      newAlertData.GetByRegion id = .ok ⟨id, false, zeroTime, true⟩) ∧
    newAlertData.GetByRegion crimeaSeed.region = .ok crimeaSeed ∧
    newAlertData.GetByRegion luhanskSeed.region = .ok luhanskSeed := by
  decide

theorem newAlertData_initial_entries_witness :
    ((15 : Region.ID) ∈ Region.ids ∧ (15 : Region.ID) ≠ crimeaSeed.region ∧
      (15 : Region.ID) ≠ luhanskSeed.region) ∧
    newAlertData.GetByRegion 15 = .ok ⟨15, false, zeroTime, true⟩ :=
  ⟨⟨by decide, by decide, by decide⟩,
    newAlertData_initial_entries.1 15 (by decide) (by decide) (by decide)⟩

/-- A successful `Region.Parse` only returns registered identifiers. -/
theorem Region.Parse_mem {name : String} {i : Region.ID}
    (h : Region.Parse name = .ok i) : i ∈ Region.ids := by
  unfold Region.Parse at h
  cases hf : Region.namesById.find? (fun p => p.2 == name) with
  | none => rw [hf] at h; exact absurd h (by simp)
  | some p =>
    rw [hf] at h
    have hpi : p.1 = i := by
      injection h
    have hp : p ∈ Region.namesById := List.mem_of_find?_eq_some hf
    exact hpi ▸ List.mem_map_of_mem _ hp

/-- Every status `parseMessage` produces carries a registered region
(the region comes from a successful `Region.Parse`); this justifies
the side condition of `Reachable.step`. -/
theorem parseMessage_region_registered {m : Message} {s : Status}
    (h : parseMessage m = .ok (some s)) : s.region ∈ Region.ids := by
  unfold parseMessage at h
  split at h
  · simp at h
  · split at h
    · simp at h
    · split at h
      · simp at h
      · split at h
        · simp at h
        · split at h
          · simp at h
          · rename_i lm hfind hvalid b hb regionId hR
            simp only [Except.ok.injEq, Option.some.injEq] at h
            rw [← h]
            exact Region.Parse_mem hR

/-- **C2** (evidence for the code bug).  For the message delivered at
2024-08-22 00:01 Kyiv time whose status line carries 23:59, the
midnight-rollback condition of the source (`updatedAt.After(messageAt)`,
second conjunct) holds, yet `parseMessage` returns the timestamp still
on the delivery date 2024-08-22 (first conjunct) — not the previous
day 2024-08-21 that the claim describes (third conjunct): the source
computes `updatedAt.Add(-24 * time.Hour)` but discards the returned
value, so the rollback is a no-op. -/
theorem parseMessage_midnight_rollback_noop :
    parseMessage badMidnightMsg =
      .ok (some ⟨26, true, ⟨2024, 8, 22, 23, 59, 0⟩, false⟩) ∧
    badMidnightMsg.date.before ⟨2024, 8, 22, 23, 59, 0⟩ = true ∧
    (⟨2024, 8, 22, 23, 59, 0⟩ : DateTime) ≠ ⟨2024, 8, 21, 23, 59, 0⟩ := by
  refine ⟨by decide, by decide, by decide⟩

/-- **C10.** The message `🔴 99:99 Повітряна тривога в м. Київ`
matches the status-line grammar shape (marker glyph, two digit pairs,
a fixed status phrase, a known region name resolving in the registry),
but `time.Parse` rejects `99:99:00`, so `parseMessage` returns an
error — not a benign non-match — and both the backfill path
(`history`) and the live-listen path (`listenUpdates`) turn that error
into a fatal, run-terminating error. -/
theorem invalid_time_digits_fatal :
    alertStatusFind badTimeMsg.text =
      some ⟨'9', '9', '9', '9', raidPhrase, "м. Київ"⟩ ∧
    Region.Parse "м. Київ" = .ok 26 ∧
    parseMessage badTimeMsg = .error ("failed to parse time: 99:99:00") ∧
    getMessagesForPeriod zeroTime none [Fetch.page [badTimeMsg], Fetch.page []] =
      .ok [badTimeMsg] ∧
    (history zeroTime none [Fetch.page [badTimeMsg], Fetch.page []]
        newAlertData).errMsg =
      some ("unable to scrape history: failed to parse time: 99:99:00") ∧
    listenUpdatesStep newAlertData (.newMessage badTimeMsg) =
      .error ("unable to scrape update: failed to parse time: 99:99:00") := by
  refine ⟨by decide, by decide, by decide, by decide, by decide, rfl⟩

/-- **C3.** On a properly constructed engine, the first `Run`
invocation executes the run body exactly once (ghost counter goes to
1) and returns the body's terminal outcome (wrapped with the
`scraper: ` prefix when it is an error); the engine state returned to
every later invocation is a fixed point on which `Run` returns `ok`
immediately, with no error and without executing the run body again
(the latch state, counter included, is unchanged). -/
theorem run_single_shot_latch (runResult runResult2 : Option String) :
    ((NewTgScraper true).Run true runResult).1.runCount = 1 ∧
    ((NewTgScraper true).Run true runResult).2 =
      (match runResult with
        | some e => RunOutcome.err ("scraper: " ++ e)
        | none => RunOutcome.ok) ∧
    (((NewTgScraper true).Run true runResult).1.Run true runResult2 =
      (((NewTgScraper true).Run true runResult).1, RunOutcome.ok)) := by
  cases runResult <;> simp [TgScraper.Run, NewTgScraper]

/-- **C8.** `Run` with an absent context always panics immediately:
the engine state (including the ghost run counter) is returned
untouched, so neither sub-task was spawned and no state was mutated.
(On an engine built with a nil client the earlier nil-client check
panics first; both are the immediate programming-error path.) -/
theorem run_nil_context_panics (r : TgScraper) (runResult : Option String) :
    ∃ msg, r.Run false runResult = (r, .panicked msg) := by
  by_cases h : r.hasClient = false
  · exact ⟨"scraper: use scraper.NewTgScraper() to create *TgScraper instance",
      by simp [TgScraper.Run, h]⟩
  · exact ⟨"scraper: nil context", by simp [TgScraper.Run, h]⟩

/-- The merge loop of `history` signals on every outcome. -/
theorem histLoop_closed :
    ∀ (l : List Message) (st : AlertData),
      (histLoop st l).historyDoneClosed = true := by
  intro l
  induction l with
  | nil => intro st; rfl
  | cons m tl ih =>
    intro st
    cases hp : parseMessage m with
    | error e => simp [histLoop, hp]
    | ok o =>
      cases o with
      | none => simp [histLoop, hp]; exact ih st
      | some s => simp [histLoop, hp]; exact ih _

/-- **C9.** Whenever the backfill walk terminates — normal completion,
client or parse error, or context cancellation (all the cases in which
`getMessagesForPeriod` returns within the modelled response script) —
the deferred `close(r.historyDone)` of `history` has run, and
`WaitForHistory` then returns through one of its ready `select` arms
(for every context state and every nondeterministic tie-break) instead
of blocking.  The close is the single deferred statement of the one
`history` call, so it is raised exactly once. -/
theorem history_done_signal_always (historyFromDate : DateTime)
    (ctxErr : Option String) (script : List Fetch) (st : AlertData)
    (hterm : getMessagesForPeriod historyFromDate ctxErr script ≠ .outOfScript) :
    (history historyFromDate ctxErr script st).historyDoneClosed = true ∧
    ∀ ctxDone pick : Bool,
      (WaitForHistory
        (history historyFromDate ctxErr script st).historyDoneClosed
        ctxDone pick).isSome = true := by
  have hclosed :
      (history historyFromDate ctxErr script st).historyDoneClosed = true := by
    unfold history
    cases hgm : getMessagesForPeriod historyFromDate ctxErr script with
    | err e => rfl
    | ok msgs => exact histLoop_closed _ _
    | outOfScript => exact absurd hgm hterm
  refine ⟨hclosed, ?_⟩
  intro ctxDone pick
  rw [hclosed]
  cases ctxDone <;> cases pick <;> rfl

theorem history_done_signal_always_witness :
    (getMessagesForPeriod zeroTime none [Fetch.page []] ≠ .outOfScript) ∧
    (history zeroTime none [Fetch.page []] newAlertData).historyDoneClosed =
      true ∧
    (WaitForHistory
        (history zeroTime none [Fetch.page []] newAlertData).historyDoneClosed
        false false).isSome = true :=
  ⟨by decide,
    (history_done_signal_always zeroTime none [Fetch.page []] newAlertData
      (by decide)).1,
    (history_done_signal_always zeroTime none [Fetch.page []] newAlertData
      (by decide)).2 false false⟩

theorem collectHeads_cons_page (m : Message) (ms : List Message)
    (tl : List Fetch) :
    collectHeads (.page (m :: ms) :: tl) =
      if keepMessage m then m :: collectHeads tl else collectHeads tl := by
  by_cases hk : keepMessage m <;> simp [collectHeads, List.filterMap_cons, hk]

theorem pageHeads_cons_page (m : Message) (ms : List Message)
    (tl : List Fetch) :
    pageHeads (.page (m :: ms) :: tl) = m :: pageHeads tl := by
  simp [pageHeads, List.filterMap_cons]

/-- What the walk keeps is a sublist of the page heads. -/
theorem collectHeads_sublist (script : List Fetch) :
    List.Sublist (collectHeads script) (pageHeads script) := by
  induction script with
  | nil => simp [collectHeads, pageHeads]
  | cons f tl ih =>
    cases f with
    | err e => simpa [collectHeads, pageHeads, List.filterMap_cons] using ih
    | page msgs =>
      cases msgs with
      | nil => simpa [collectHeads, pageHeads, List.filterMap_cons] using ih
      | cons m ms =>
        rw [collectHeads_cons_page, pageHeads_cons_page]
        by_cases hk : keepMessage m
        · rw [if_pos hk]
          exact ih.cons₂ m
        · rw [if_neg hk]
          exact ih.cons m

/-- Through every progressing fetch (a non-empty page whose head is at
or after the horizon) the walk keeps going, skipping forwarded and
non-text heads and appending the rest, and then breaks at the first
stopping fetch (empty page, or head strictly older than the horizon),
never reading past it. -/
theorem gmLoop_progressing (historyFromDate : DateTime) :
    ∀ (pre : List Fetch) (stopF : Fetch) (rest : List Fetch)
      (acc : List Message),
      (∀ f ∈ pre, ∃ m ms, f = .page (m :: ms) ∧
        m.date.before historyFromDate = false) →
      (stopF = .page [] ∨ ∃ m ms, stopF = .page (m :: ms) ∧
        m.date.before historyFromDate = true) →
      gmLoop historyFromDate none (pre ++ stopF :: rest) acc =
        .ok (acc ++ collectHeads pre) := by
  intro pre
  induction pre with
  | nil =>
    intro stopF rest acc _ hstop
    rcases hstop with h | ⟨m, ms, h, hold⟩
    · subst h; simp [gmLoop, collectHeads]
    · subst h; simp [gmLoop, collectHeads, hold]
  | cons f tl ih =>
    intro stopF rest acc hpre hstop
    obtain ⟨m, ms, hf, hnew⟩ := hpre f (by simp)
    subst hf
    have htl : ∀ f ∈ tl, ∃ m ms, f = Fetch.page (m :: ms) ∧
        m.date.before historyFromDate = false :=
      fun g hg => hpre g (List.mem_cons_of_mem _ hg)
    rw [List.cons_append]
    by_cases hfw : m.forwarded
    · have hk : keepMessage m = false := by simp [keepMessage, hfw]
      rw [collectHeads_cons_page, hk, if_neg (by simp)]
      simp only [gmLoop, hnew, hfw]
      simp only [Bool.false_eq_true, if_false, if_true]
      exact ih stopF rest acc htl hstop
    · by_cases htx : m.isText
      · have hk : keepMessage m = true := by simp [keepMessage, hfw, htx]
        rw [collectHeads_cons_page, hk, if_pos rfl]
        simp only [gmLoop, hnew, hfw, htx]
        simp only [Bool.false_eq_true, if_false, Bool.not_true, if_true]
        rw [ih stopF rest (acc ++ [m]) htl hstop]
        simp
      · have hk : keepMessage m = false := by simp [keepMessage, htx]
        rw [collectHeads_cons_page, hk, if_neg (by simp)]
        simp only [gmLoop, hnew, hfw, htx]
        simp only [Bool.false_eq_true, if_false, Bool.not_false, if_true]
        exact ih stopF rest acc htl hstop

/-- Over progressing fetches only, the walk never breaks: it always
issues the next request. -/
theorem gmLoop_progressing_outOfScript (historyFromDate : DateTime) :
    ∀ (pre : List Fetch) (acc : List Message),
      (∀ f ∈ pre, ∃ m ms, f = .page (m :: ms) ∧
        m.date.before historyFromDate = false) →
      gmLoop historyFromDate none pre acc = .outOfScript := by
  intro pre
  induction pre with
  | nil => intro acc _; rfl
  | cons f tl ih =>
    intro acc hpre
    obtain ⟨m, ms, hf, hnew⟩ := hpre f (by simp)
    subst hf
    have htl : ∀ f ∈ tl, ∃ m ms, f = Fetch.page (m :: ms) ∧
        m.date.before historyFromDate = false :=
      fun g hg => hpre g (List.mem_cons_of_mem _ hg)
    by_cases hfw : m.forwarded
    · simp only [gmLoop, hnew, hfw]
      simp only [Bool.false_eq_true, if_false, if_true]
      exact ih acc htl
    · by_cases htx : m.isText
      · simp only [gmLoop, hnew, hfw, htx]
        simp only [Bool.false_eq_true, if_false, Bool.not_true, if_true]
        exact ih (acc ++ [m]) htl
      · simp only [gmLoop, hnew, hfw, htx]
        simp only [Bool.false_eq_true, if_false, Bool.not_false, if_true]
        exact ih acc htl

/-- **C6.** For a most-recent-first history delivery consisting of
progressing responses `pre` followed by a stopping response `stopF`
(an empty page, or a first message strictly older than the configured
history-start time), the backfill walk terminates exactly at `stopF`:
it returns the kept heads of `pre` (messages at or after the horizon,
minus forwarded and non-text ones, which are skipped without
terminating) and never reads past `stopF` (first conjunct); on `pre`
alone it would keep fetching (second conjunct).  `history` then parses
and merges exactly the reversed batch (third conjunct), which is in
forward chronological order, oldest first (fourth conjunct). -/
theorem backfill_walk_characterization (historyFromDate : DateTime)
    (pre rest : List Fetch) (stopF : Fetch) (st : AlertData)
    (hpre : ∀ f ∈ pre, ∃ m ms, f = .page (m :: ms) ∧
      m.date.before historyFromDate = false)
    (hstop : stopF = .page [] ∨ ∃ m ms, stopF = .page (m :: ms) ∧
      m.date.before historyFromDate = true)
    (hrecentFirst : (pageHeads pre).Pairwise
      (fun a b => a.date.before b.date = false)) :
    getMessagesForPeriod historyFromDate none (pre ++ stopF :: rest) =
      .ok (collectHeads pre) ∧
    getMessagesForPeriod historyFromDate none pre = .outOfScript ∧
    history historyFromDate none (pre ++ stopF :: rest) st =
      histLoop st (collectHeads pre).reverse ∧
    ((collectHeads pre).reverse).Pairwise
      (fun a b => b.date.before a.date = false) := by
  have h1 : getMessagesForPeriod historyFromDate none (pre ++ stopF :: rest) =
      .ok (collectHeads pre) := by
    unfold getMessagesForPeriod
    simpa using gmLoop_progressing historyFromDate pre stopF rest [] hpre hstop
  have h2 : getMessagesForPeriod historyFromDate none pre = .outOfScript :=
    gmLoop_progressing_outOfScript historyFromDate pre [] hpre
  refine ⟨h1, h2, ?_, ?_⟩
  · unfold history
    rw [h1]
  · rw [List.pairwise_reverse]
    exact List.Pairwise.sublist (collectHeads_sublist pre) hrecentFirst

theorem backfill_walk_characterization_witness :
    (odesaRaidMsg.date.before ⟨2024, 8, 20, 0, 0, 0⟩ = false ∧
      odesaClearMsg.date.before ⟨2024, 8, 20, 0, 0, 0⟩ = true) ∧
    (getMessagesForPeriod ⟨2024, 8, 20, 0, 0, 0⟩ none
        ([Fetch.page [odesaRaidMsg]] ++ Fetch.page [odesaClearMsg] :: []) =
      .ok (collectHeads [Fetch.page [odesaRaidMsg]]) ∧
    getMessagesForPeriod ⟨2024, 8, 20, 0, 0, 0⟩ none
        [Fetch.page [odesaRaidMsg]] = .outOfScript ∧
    history ⟨2024, 8, 20, 0, 0, 0⟩ none
        ([Fetch.page [odesaRaidMsg]] ++ Fetch.page [odesaClearMsg] :: [])
        newAlertData =
      histLoop newAlertData (collectHeads [Fetch.page [odesaRaidMsg]]).reverse ∧
    ((collectHeads [Fetch.page [odesaRaidMsg]]).reverse).Pairwise
      (fun a b => b.date.before a.date = false)) :=
  ⟨⟨by decide, by decide⟩,
    backfill_walk_characterization ⟨2024, 8, 20, 0, 0, 0⟩
      [Fetch.page [odesaRaidMsg]] [] (Fetch.page [odesaClearMsg]) newAlertData
      (by
        intro f hf
        simp only [List.mem_singleton] at hf
        subst hf
        exact ⟨odesaRaidMsg, [], rfl, by decide⟩)
      (Or.inr ⟨odesaClearMsg, [], rfl, by decide⟩)
      (by simp [pageHeads])⟩
